import Mathlib

/-!
Verification of the PlexExtrasCollection script (`PlexExtrasCollection.py`).

The script scans a Plex library section, determines per item whether it has
locally-attached extras, and synchronizes membership of a named collection to
match.  Below is a shallow embedding of the script's pure logic:

* the per-item metadata processing of `process_item_group` (lines 208-236),
* the `get_metadata` failure path (lines 213-217, 239-247),
* the batching comprehension of `run` (line 112),
* the configuration resolution of `get_config_value` (lines 65-88),
* the section-selection input loop of `get_section` (lines 183-192),
* the top-level control flow of `run` (lines 91-125),
* the synchronization pass of `post_process` (lines 250-291).

HTTP calls, console printing and timing are effects outside the embedding;
their *results* (fetch outcomes, user input) appear as explicit parameters,
and the mutations the script would issue appear as explicit return values.
-/

/-- One entry of `extras['Metadata']`: we only need its `guid` field
(`extra['guid']`, line 232). -/
structure Extra where
  guid : String
deriving DecidableEq, Repr

/-- The `metadata['Extras']` envelope: a `size` field and the list of extras
(lines 226-231). -/
structure ExtrasObj where
  size : Nat
  Metadata : List Extra
deriving DecidableEq, Repr

/-- The fields of one element of the batched metadata response that
`process_item_group` reads (lines 218-236).  `Extras` is `none` when the JSON
value is `null`/falsy (the `not extras` test, line 228); `Collection` is `none`
when the key is absent (line 236). -/
structure ItemMetadata where
  ratingKey : String
  title : String
  grandparentTitle : String
  parentIndex : Nat
  index : Nat
  Extras : Option ExtrasObj
  Collection : Option (List String)
deriving DecidableEq, Repr

/-- Python's `s.startswith(p)`: `p` is a prefix of `s` (character-wise). -/
def py_startswith (s p : String) : Bool :=
  p.data.isPrefixOf s.data

/-- Python's `str.rjust(width, fill)`: left-pad to `width` with `fill`
(line 225). -/
def rjust (s : String) (width : Nat) (fill : Char) : String :=
  String.mk (List.replicate (width - s.length) fill) ++ s

/-- The display title built at lines 223-225: the raw `title` for a movie
section, or `"{grandparentTitle} - SxxEyy - {title}"` for a show section. -/
def display_title (show_section : Bool) (m : ItemMetadata) : String :=
  if show_section then
    m.grandparentTitle ++ " - S" ++ rjust (toString m.parentIndex) 2 '0'
      ++ "E" ++ rjust (toString m.index) 2 '0' ++ " - " ++ m.title
  else
    m.title

/-- The per-item record stored in `self.mediaItems` (line 227). -/
structure ItemInfo where
  collections : List String
  id : String
  has_extras : Bool
deriving DecidableEq, Repr

/-- The value stored for one metadata entry by the loop body at lines 221-236:
start from `{'collections': [], 'id': ..., 'has_extras': False}`; when extras
are falsy or `size == 0` the `continue` at line 229 leaves that record as is;
otherwise `has_extras` is set iff some extra has a truthy `guid` starting with
`'file:///'` (lines 231-234) and the collection tags are captured (line 236). -/
def process_metadata (m : ItemMetadata) : ItemInfo :=
  match m.Extras with
  | none => { collections := [], id := m.ratingKey, has_extras := false }
  | some e =>
    if e.size = 0 then
      { collections := [], id := m.ratingKey, has_extras := false }
    else
      { collections := m.Collection.getD []
        id := m.ratingKey
        has_extras := e.Metadata.any (fun x => x.guid != "" && py_startswith x.guid "file:///") }

/-- The extras associated with a metadata entry: the `extras['Metadata']` list,
empty when `Extras` is falsy. -/
def associated_extras (m : ItemMetadata) : List Extra :=
  match m.Extras with
  | none => []
  | some e => e.Metadata

/-- A metadata entry as actually produced by the server: the envelope's `size`
field counts the `Metadata` list. -/
def wellformed_extras (m : ItemMetadata) : Prop :=
  ∀ e, m.Extras = some e → e.size = e.Metadata.length

/-- Python dict assignment `d[k] = v` on an association list that preserves
insertion order: replace the value in place if the key exists, else append. -/
def dict_set (d : List (String × ItemInfo)) (k : String) (v : ItemInfo) :
    List (String × ItemInfo) :=
  match d with
  | [] => [(k, v)]
  | (k', v') :: rest => if k' = k then (k, v) :: rest else (k', v') :: dict_set rest k v

/-- Python dict lookup `d[k]` on an association list. -/
def dict_lookup (d : List (String × ItemInfo)) (k : String) : Option ItemInfo :=
  match d with
  | [] => none
  | (k', v') :: rest => if k' = k then some v' else dict_lookup rest k

/-- The loop at lines 218-236 over the `Metadata` list of a successful batched
fetch: falsy entries are skipped (line 219-220), every other entry is stored
into the accumulated map under its display title. -/
def scan_items (show_section : Bool) (ms : List (Option ItemMetadata))
    (acc : List (String × ItemInfo)) : List (String × ItemInfo) :=
  match ms with
  | [] => acc
  | none :: rest => scan_items show_section rest acc
  | some m :: rest =>
      scan_items show_section rest
        (dict_set acc (display_title show_section m) (process_metadata m))

/-- `process_item_group` (lines 208-236) after the batched fetch.  `fetched` is
the result of `get_metadata`: `none` when the fetch failed (`get_metadata`
returned `False` on an exception, or `get_json_response` returned `None` on a
non-200 status or malformed JSON).  On failure the code prints
`'Error getting metadata for this group, ignoring'` but then unconditionally
evaluates `metadataItems['Metadata']` (line 217), which raises a `TypeError`
(subscripting `None`/`False`): there is no `continue`/`return` after the
warning, so the failure is an uncaught exception, not a skip. -/
def process_item_group (show_section : Bool)
    (fetched : Option (List (Option ItemMetadata)))
    (acc : List (String × ItemInfo)) :
    Except String (List (String × ItemInfo)) :=
  match fetched with
  | none => .error "TypeError: argument of type NoneType is not subscriptable"
  | some ms => .ok (scan_items show_section ms acc)

/-- Spec-side helper: the last metadata entry, in scan order, whose display
title is `t` (falsy entries skipped, as in the scan loop). -/
def last_scanned_with_title (show_section : Bool) (t : String) :
    List (Option ItemMetadata) → Option ItemMetadata
  | [] => none
  | none :: rest => last_scanned_with_title show_section t rest
  | some m :: rest =>
      match last_scanned_with_title show_section t rest with
      | some m' => some m'
      | none => if display_title show_section m = t then some m else none

/-- A concrete metadata entry with one local-file extra, used in sanity checks
and witnesses. -/
def sample_item : ItemMetadata :=
  { ratingKey := "101", title := "A Movie", grandparentTitle := "",
    parentIndex := 0, index := 0,
    Extras := some { size := 2, Metadata := [⟨"plex://extra/x"⟩, ⟨"file:///e.mkv"⟩] },
    Collection := some ["Action"] }

example : (process_metadata sample_item).has_extras = true := by decide

example :
    (process_metadata
      { ratingKey := "1", title := "A", grandparentTitle := "", parentIndex := 0,
        index := 0,
        Extras := some { size := 1, Metadata := [⟨""⟩] },
        Collection := none }).has_extras = false := by decide

/-- **C1.** For every scanned media item (with the server's `size`-counts-list
invariant on the extras envelope), the stored `has_extras` flag is `true` iff
at least one associated extra has a non-empty guid starting with
`'file:///'`. -/
theorem has_extras_iff_local_file_extra (m : ItemMetadata)
    (hwf : wellformed_extras m) :
    (process_metadata m).has_extras = true ↔
      ∃ x ∈ associated_extras m, x.guid ≠ "" ∧ "file:///".data <+: x.guid.data := by
  cases hE : m.Extras with
  | none => simp [process_metadata, associated_extras, hE]
  | some e =>
    have hsize := hwf e hE
    by_cases h0 : e.size = 0
    · have hnil : e.Metadata = [] :=
        List.eq_nil_of_length_eq_zero (by rw [← hsize, h0])
      simp [process_metadata, associated_extras, hE, h0, hnil]
    · simp [process_metadata, associated_extras, hE, h0, List.any_eq_true,
        py_startswith, List.isPrefixOf_iff_prefix, bne_iff_ne, and_assoc]

/-- Witness for C1 at a concrete item. -/
theorem has_extras_iff_local_file_extra_witness :
    (process_metadata sample_item).has_extras = true ↔
      ∃ x ∈ associated_extras sample_item,
        x.guid ≠ "" ∧ "file:///".data <+: x.guid.data :=
  has_extras_iff_local_file_extra sample_item
    (by intro e he; injection he with h; exact h ▸ rfl)

/-- How the per-item loop of `post_process` (lines 264-278) classifies one
item: already in the collection with extras (printed, line 269), appended to
`added` (line 278), appended to `removed` (line 274), or untouched. -/
inductive Classification where
  | kept
  | added
  | removed
  | skipped
deriving DecidableEq, Repr

/-- What the loop body of `post_process` does for one item: `push` is the
collections list passed to `set_collections` when a mutation is issued
(`none` when no call is made), `classification` records which list the item
title was appended to. -/
structure ItemAction where
  push : Option (List String)
  classification : Classification
deriving DecidableEq, Repr

/-- The body of the per-item loop in `post_process` (lines 264-278):

* in the collection and has extras: print only (line 269);
* in the collection, no extras: when `no_delete` is unset, filter the tag out
  and push (lines 271-273); either way count as removed (line 274);
* not in the collection, has extras: append the tag, push, count as added
  (lines 275-278);
* otherwise: nothing. -/
def post_process_item (collection_name : String) (no_delete : Bool)
    (info : ItemInfo) : ItemAction :=
  if info.collections.contains collection_name then
    if info.has_extras then
      { push := none, classification := .kept }
    else if no_delete then
      { push := none, classification := .removed }
    else
      { push := some (info.collections.filter (fun c => c != collection_name))
        classification := .removed }
  else if info.has_extras then
    { push := some (info.collections ++ [collection_name])
      classification := .added }
  else
    { push := none, classification := .skipped }

/-- The stored `mediaItems` entry after the loop body ran on it: the `added`
branch mutates the stored list in place via `collections.append(...)`
(line 276), while the `removed` branch rebinds a local name to a fresh
filtered list (line 272) and leaves the stored entry unchanged. -/
def post_process_item_state (collection_name : String) (no_delete : Bool)
    (info : ItemInfo) : ItemInfo :=
  if info.collections.contains collection_name then
    info
  else if info.has_extras then
    { info with collections := info.collections ++ [collection_name] }
  else
    info

/-- One full synchronization pass of `post_process` over the accumulated item
map: the list of `set_collections` calls issued (item id paired with the
pushed list, in scan order) together with the in-memory map after the pass. -/
def post_process (collection_name : String) (no_delete : Bool)
    (items : List (String × ItemInfo)) :
    List (String × List String) × List (String × ItemInfo) :=
  (items.filterMap (fun p =>
      (post_process_item collection_name no_delete p.2).push.map
        (fun l => (p.2.id, l))),
   items.map (fun p => (p.1, post_process_item_state collection_name no_delete p.2)))

example :
    post_process_item "Movies with Extras" false
      { collections := ["Action"], id := "1", has_extras := true } =
    { push := some ["Action", "Movies with Extras"], classification := .added } := by
  decide

example :
    post_process_item "Movies with Extras" false
      { collections := ["Movies with Extras"], id := "1", has_extras := false } =
    { push := some [], classification := .removed } := by
  decide

/-- **C2.** An item not in the target collection whose `has_extras` flag is
set gets a push of exactly its prior list with the collection name appended
once at the end, and is classified as added. -/
theorem not_in_collection_with_extras_added (name : String) (no_delete : Bool)
    (info : ItemInfo) (hnotin : name ∉ info.collections)
    (hex : info.has_extras = true) :
    (post_process_item name no_delete info).push = some (info.collections ++ [name]) ∧
    (info.collections ++ [name]).count name = 1 ∧
    (post_process_item name no_delete info).classification = .added := by
  refine ⟨?_, ?_, ?_⟩
  · simp [post_process_item, hnotin, hex]
  · rw [List.count_append]
    simp [List.count_eq_zero.mpr hnotin]
  · simp [post_process_item, hnotin, hex]

/-- Witness for C2 at a concrete item. -/
theorem not_in_collection_with_extras_added_witness :
    (post_process_item "Movies with Extras" false
        { collections := ["Action"], id := "1", has_extras := true }).push =
      some (["Action"] ++ ["Movies with Extras"]) ∧
    (["Action"] ++ ["Movies with Extras"]).count "Movies with Extras" = 1 ∧
    (post_process_item "Movies with Extras" false
        { collections := ["Action"], id := "1", has_extras := true }).classification =
      .added :=
  not_in_collection_with_extras_added "Movies with Extras" false
    { collections := ["Action"], id := "1", has_extras := true }
    (by decide) (by decide)

/-- **C3.** An item in the target collection whose `has_extras` flag is unset:
with delete-suppression on, no mutation is issued; with it off, the push is
the prior list with the collection name filtered out; either way the item is
classified as removed. -/
theorem in_collection_without_extras_removed (name : String) (no_delete : Bool)
    (info : ItemInfo) (hin : name ∈ info.collections)
    (hex : info.has_extras = false) :
    (no_delete = true → (post_process_item name no_delete info).push = none) ∧
    (no_delete = false →
      (post_process_item name no_delete info).push =
        some (info.collections.filter (fun c => c != name))) ∧
    (post_process_item name no_delete info).classification = .removed := by
  refine ⟨?_, ?_, ?_⟩
  · intro hnd; simp [post_process_item, hin, hex, hnd]
  · intro hnd; simp [post_process_item, hin, hex, hnd]
  · cases no_delete <;> simp [post_process_item, hin, hex]

/-- Witness for C3 at a concrete item. -/
theorem in_collection_without_extras_removed_witness :
    ((false : Bool) = true →
      (post_process_item "Movies with Extras" false
          { collections := ["Movies with Extras"], id := "1", has_extras := false }).push =
        none) ∧
    ((false : Bool) = false →
      (post_process_item "Movies with Extras" false
          { collections := ["Movies with Extras"], id := "1", has_extras := false }).push =
        some ((["Movies with Extras"] : List String).filter
          (fun c => c != "Movies with Extras"))) ∧
    (post_process_item "Movies with Extras" false
        { collections := ["Movies with Extras"], id := "1", has_extras := false }).classification =
      .removed :=
  in_collection_without_extras_removed "Movies with Extras" false
    { collections := ["Movies with Extras"], id := "1", has_extras := false }
    (by decide) (by decide)

/-- An item whose collection membership already matches its extras flag is
left alone by the loop body: no push, stored entry unchanged. -/
theorem post_process_item_converged (name : String) (no_delete : Bool)
    (info : ItemInfo) (h : name ∈ info.collections ↔ info.has_extras = true) :
    (post_process_item name no_delete info).push = none ∧
    post_process_item_state name no_delete info = info := by
  cases hx : info.has_extras with
  | true =>
    have hm : name ∈ info.collections := h.mpr hx
    simp [post_process_item, post_process_item_state, hm, hx]
  | false =>
    have hm : name ∉ info.collections := fun c => by
      rw [h.mp c] at hx; exact Bool.noConfusion hx
    simp [post_process_item, post_process_item_state, hm, hx]

/-- A converged map yields no mutations in one pass. -/
theorem post_process_converged_no_mutations (name : String) (no_delete : Bool)
    (items : List (String × ItemInfo))
    (hconv : ∀ p ∈ items, name ∈ p.2.collections ↔ p.2.has_extras = true) :
    (post_process name no_delete items).1 = [] := by
  unfold post_process
  induction items with
  | nil => rfl
  | cons p rest ih =>
    have hp := (post_process_item_converged name no_delete p.2
      (hconv p (List.mem_cons_self p rest))).1
    simpa [List.filterMap_cons, hp] using
      ih (fun q hq => hconv q (List.mem_cons_of_mem p hq))

/-- A converged map is unchanged by the pass. -/
theorem post_process_converged_state (name : String) (no_delete : Bool)
    (items : List (String × ItemInfo))
    (hconv : ∀ p ∈ items, name ∈ p.2.collections ↔ p.2.has_extras = true) :
    (post_process name no_delete items).2 = items := by
  unfold post_process
  induction items with
  | nil => rfl
  | cons p rest ih =>
    have hp := (post_process_item_converged name no_delete p.2
      (hconv p (List.mem_cons_self p rest))).2
    simpa [hp] using ih (fun q hq => hconv q (List.mem_cons_of_mem p hq))

/-- **C4.** Idempotence: on an item map in which membership in the target
collection already matches the extras flag for every item, one synchronization
pass issues no `set_collections` calls, and a second pass over the resulting
state issues none either. -/
theorem post_process_idempotent_on_converged (name : String) (no_delete : Bool)
    (items : List (String × ItemInfo))
    (hconv : ∀ p ∈ items, name ∈ p.2.collections ↔ p.2.has_extras = true) :
    (post_process name no_delete items).1 = [] ∧
    (post_process name no_delete (post_process name no_delete items).2).1 = [] := by
  refine ⟨post_process_converged_no_mutations name no_delete items hconv, ?_⟩
  rw [post_process_converged_state name no_delete items hconv]
  exact post_process_converged_no_mutations name no_delete items hconv

/-- Witness for C4 on a concrete converged two-item map. -/
theorem post_process_idempotent_on_converged_witness :
    (post_process "Movies with Extras" false
        [("A", { collections := ["Movies with Extras"], id := "1", has_extras := true }),
         ("B", { collections := [], id := "2", has_extras := false })]).1 = [] ∧
    (post_process "Movies with Extras" false
        (post_process "Movies with Extras" false
          [("A", { collections := ["Movies with Extras"], id := "1", has_extras := true }),
           ("B", { collections := [], id := "2", has_extras := false })]).2).1 = [] :=
  post_process_idempotent_on_converged "Movies with Extras" false
    [("A", { collections := ["Movies with Extras"], id := "1", has_extras := true }),
     ("B", { collections := [], id := "2", has_extras := false })]
    (by intro p hp; fin_cases hp <;> simp)

/-- Python `range(start, stop, step)` for a positive step: the arithmetic
progression below `stop`. -/
def pyrange (start stop step : Nat) : List Nat :=
  (List.range ((stop - start + step - 1) / step)).map (fun k => start + step * k)

/-- Python slice `l[i:j]` for in-range non-negative bounds. -/
def pyslice {α : Type} (l : List α) (i j : Nat) : List α :=
  (l.drop i).take (j - i)

/-- The batching comprehension at line 112:
`[root[i:min(item_count, i + 50)] for i in range(0, item_count, 50)]`. -/
def make_groups {α : Type} (root : List α) : List (List α) :=
  (pyrange 0 root.length 50).map
    (fun i => pyslice root i (min root.length (i + 50)))

/-- Spec-side recursive chunking into consecutive blocks of at most 50. -/
def chunks50 {α : Type} : List α → List (List α)
  | [] => []
  | x :: xs => ((x :: xs).take 50) :: chunks50 ((x :: xs).drop 50)
termination_by l => l.length
decreasing_by
  simp only [List.length_drop, List.length_cons]
  omega

theorem chunks50_nil {α : Type} : chunks50 ([] : List α) = [] := by
  rw [chunks50]

theorem chunks50_cons {α : Type} (x : α) (xs : List α) :
    chunks50 (x :: xs) = ((x :: xs).take 50) :: chunks50 ((x :: xs).drop 50) := by
  rw [chunks50]

/-- The comprehension, with each slice normalized to `take 50` of a drop. -/
theorem make_groups_eq_map_range {α : Type} (l : List α) :
    make_groups l =
      (List.range ((l.length + 49) / 50)).map (fun k => (l.drop (50 * k)).take 50) := by
  unfold make_groups pyrange pyslice
  rw [List.map_map]
  refine List.map_congr_left ?_
  intro k _
  simp only [Function.comp_apply, Nat.zero_add, Nat.sub_zero]
  rw [List.take_eq_take]
  simp only [List.length_drop]
  omega

/-- The comprehension computes exactly the recursive chunking. -/
theorem make_groups_eq_chunks50_aux {α : Type} :
    ∀ (n : Nat) (l : List α), l.length ≤ n →
      (List.range ((l.length + 49) / 50)).map (fun k => (l.drop (50 * k)).take 50) =
        chunks50 l := by
  intro n
  induction n with
  | zero =>
    intro l h
    have hl : l = [] := List.eq_nil_of_length_eq_zero (Nat.le_zero.mp h)
    subst hl
    simp [chunks50_nil]
  | succ n ih =>
    intro l h
    cases l with
    | nil => simp [chunks50_nil]
    | cons x xs =>
      rw [chunks50_cons]
      have hq : ((x :: xs).length + 49) / 50 = (((x :: xs).drop 50).length + 49) / 50 + 1 := by
        simp only [List.length_drop, List.length_cons]
        omega
      rw [hq, List.range_succ_eq_map, List.map_cons, List.map_map]
      refine congrArg₂ List.cons (by simp) ?_
      have hfun : ((fun k => ((x :: xs).drop (50 * k)).take 50) ∘ Nat.succ) =
          (fun k => (((x :: xs).drop 50).drop (50 * k)).take 50) := by
        funext k
        simp only [Function.comp_apply, List.drop_drop]
        congr 2
        omega
      rw [hfun]
      exact ih ((x :: xs).drop 50)
        (by simp only [List.length_drop, List.length_cons] at h ⊢; omega)

theorem make_groups_eq_chunks50 {α : Type} (l : List α) :
    make_groups l = chunks50 l := by
  rw [make_groups_eq_map_range]
  exact make_groups_eq_chunks50_aux l.length l (Nat.le_refl _)

theorem chunks50_flatten {α : Type} :
    ∀ (n : Nat) (l : List α), l.length ≤ n → (chunks50 l).flatten = l := by
  intro n
  induction n with
  | zero =>
    intro l h
    have hl : l = [] := List.eq_nil_of_length_eq_zero (Nat.le_zero.mp h)
    subst hl
    simp [chunks50_nil]
  | succ n ih =>
    intro l h
    cases l with
    | nil => simp [chunks50_nil]
    | cons x xs =>
      rw [chunks50_cons, List.flatten_cons,
        ih ((x :: xs).drop 50)
          (by simp only [List.length_drop, List.length_cons] at h ⊢; omega)]
      exact List.take_append_drop 50 (x :: xs)

theorem chunks50_mem {α : Type} :
    ∀ (n : Nat) (l : List α), l.length ≤ n →
      ∀ g ∈ chunks50 l, g ≠ [] ∧ g.length ≤ 50 := by
  intro n
  induction n with
  | zero =>
    intro l h
    have hl : l = [] := List.eq_nil_of_length_eq_zero (Nat.le_zero.mp h)
    subst hl
    simp [chunks50_nil]
  | succ n ih =>
    intro l h
    cases l with
    | nil => simp [chunks50_nil]
    | cons x xs =>
      rw [chunks50_cons]
      intro g hg
      rcases List.mem_cons.mp hg with hg | hg
      · subst hg
        refine ⟨by simp, ?_⟩
        simpa using Nat.min_le_left 50 (x :: xs).length
      · exact ih ((x :: xs).drop 50)
          (by simp only [List.length_drop, List.length_cons] at h ⊢; omega) g hg

theorem chunks50_full {α : Type} :
    ∀ (n : Nat) (l : List α), l.length ≤ n →
      ∀ i, i + 1 < (chunks50 l).length → ((chunks50 l).getD i []).length = 50 := by
  intro n
  induction n with
  | zero =>
    intro l h
    have hl : l = [] := List.eq_nil_of_length_eq_zero (Nat.le_zero.mp h)
    subst hl
    simp [chunks50_nil]
  | succ n ih =>
    intro l h
    cases l with
    | nil => simp [chunks50_nil]
    | cons x xs =>
      rw [chunks50_cons]
      intro i hi
      match i with
      | 0 =>
        have h50 : chunks50 ((x :: xs).drop 50) ≠ [] := by
          intro hnil
          rw [hnil] at hi
          simp at hi
        have hdrop : (x :: xs).drop 50 ≠ [] := by
          intro hnil
          rw [hnil, chunks50_nil] at h50
          exact h50 rfl
        have hlen : 50 < (x :: xs).length := by
          by_contra hle
          exact hdrop (List.drop_eq_nil_of_le (by omega))
        simp only [List.getD_cons_zero, List.length_take]
        omega
      | i + 1 =>
        simp only [List.getD_cons_succ, List.length_cons] at hi ⊢
        exact ih ((x :: xs).drop 50)
          (by simp only [List.length_drop, List.length_cons] at h ⊢; omega)
          i (Nat.lt_of_succ_lt_succ hi)

/-- **C5.** Partitioning the scanned items into the comprehension's groups and
flattening reproduces the original list exactly; every group is non-empty,
no group exceeds 50 elements, and every group but possibly the last has
exactly 50. -/
theorem make_groups_partition (root : List ItemMetadata) :
    (make_groups root).flatten = root ∧
    (∀ g ∈ make_groups root, g ≠ [] ∧ g.length ≤ 50) ∧
    (∀ i, i + 1 < (make_groups root).length →
      ((make_groups root).getD i []).length = 50) := by
  rw [make_groups_eq_chunks50]
  exact ⟨chunks50_flatten root.length root (Nat.le_refl _),
    chunks50_mem root.length root (Nat.le_refl _),
    chunks50_full root.length root (Nat.le_refl _)⟩

/-- A minimal metadata entry for bulk witnesses. -/
def blank_item : ItemMetadata :=
  { ratingKey := "", title := "", grandparentTitle := "", parentIndex := 0,
    index := 0, Extras := none, Collection := none }

/-- Witness for C5 on a concrete 51-element list: two groups, the first of
exactly 50 elements, flattening restores the input. -/
theorem make_groups_partition_witness :
    (make_groups (List.replicate 51 blank_item)).flatten = List.replicate 51 blank_item ∧
    ((make_groups (List.replicate 51 blank_item)).getD 0 []).length = 50 := by
  refine ⟨(make_groups_partition (List.replicate 51 blank_item)).1, ?_⟩
  exact (make_groups_partition (List.replicate 51 blank_item)).2.2 0 (by decide)

/-- **C6 (code bug).** When the batched metadata fetch for a group fails
(`get_metadata` returns a falsy result, line 214), `process_item_group` does
not skip the group: after printing the warning it still evaluates
`metadataItems['Metadata']` (line 217) on the falsy result, raising a
`TypeError` instead of leaving the accumulated map unchanged and moving on. -/
theorem process_item_group_fetch_failure_raises (show_section : Bool)
    (acc : List (String × ItemInfo)) :
    process_item_group show_section none acc =
      Except.error "TypeError: argument of type NoneType is not subscriptable" :=
  rfl

/-- `get_config_value` (lines 65-88) for the string-valued settings (`token`,
`host`, `section`, `collection`).  `config` is the config-file value when the
key is present and non-`None`; `cmd_arg` is the command-line value (`None`
when the flag was not passed); `dflt` mirrors the `default` parameter
(`none` is Python `None`); `user_input` is what `input()` would return.  The
result pairs the resolved value with whether `input()` was consulted. -/
def get_config_value_str (config : Option String) (cmd_arg : Option String)
    (dflt : Option String) (prompt : String) (user_input : String) :
    String × Bool :=
  match config with
  | some c =>
    match cmd_arg with
    | some a => (a, false)      -- command-line args shadow config (lines 71-74)
    | none => (c, false)        -- line 75
  | none =>
    match cmd_arg with
    | some a => (a, false)      -- lines 77-78
    | none =>
      match dflt with
      | none => ("", false)     -- `if default == None: return ''` (lines 80-81)
      | some d =>
        if d.length ≠ 0 then (d, false)   -- lines 83-84: default wins
        else (user_input, true)           -- lines 86-88: only now prompt

/-- `get_config_value` for the boolean `no_delete` setting: the `store_true`
command-line flag always carries a value (`False` when absent), so the
`cmd_arg != None` tests at lines 71 and 77 always succeed. -/
def get_config_value_flag (config : Option Bool) (cmd_arg : Bool) : Bool :=
  match config with
  | some _ => cmd_arg           -- lines 71-74: cmd_arg is never None, shadows
  | none => cmd_arg             -- lines 77-78

/-- **C7 counterexample.** For `host` with no command-line flag and no config
value, the hard-coded default `'http://localhost:32400'` is returned and the
user is never prompted: the default is consulted *before* the prompt, not
after it. -/
theorem get_config_value_default_beats_prompt :
    get_config_value_str none none (some "http://localhost:32400") ""
      "http://typed.by.user:1234" = ("http://localhost:32400", false) :=
  rfl

/-- **C7 (amended).** The actual precedence in `get_config_value` is
command-line flag > config-file value > hard-coded default > interactive
prompt: a `None` default resolves to the empty string without prompting, a
non-empty default is returned without prompting, and `input()` is consulted
only when the default is the empty string. -/
theorem get_config_value_precedence (config cmd_arg dflt : Option String)
    (prompt user_input : String) :
    (∀ a, cmd_arg = some a →
      get_config_value_str config cmd_arg dflt prompt user_input = (a, false)) ∧
    (∀ c, cmd_arg = none → config = some c →
      get_config_value_str config cmd_arg dflt prompt user_input = (c, false)) ∧
    (∀ d, cmd_arg = none → config = none → dflt = some d → d ≠ "" →
      get_config_value_str config cmd_arg dflt prompt user_input = (d, false)) ∧
    (cmd_arg = none → config = none → dflt = some "" →
      get_config_value_str config cmd_arg dflt prompt user_input = (user_input, true)) ∧
    (cmd_arg = none → config = none → dflt = none →
      get_config_value_str config cmd_arg dflt prompt user_input = ("", false)) := by
  refine ⟨?_, ?_, ?_, ?_, ?_⟩
  · rintro a rfl
    cases config <;> rfl
  · rintro c rfl rfl
    rfl
  · rintro d rfl rfl rfl hd
    have hlen : d.length ≠ 0 := fun h0 => hd (by
      cases d with
      | mk data =>
        simp only [String.length] at h0
        simp [List.eq_nil_of_length_eq_zero h0])
    simp [get_config_value_str, hlen]
  · rintro rfl rfl rfl
    rfl
  · rintro rfl rfl rfl
    rfl

/-- Witness for C7 (amended) at concrete inputs: a passed flag shadows a
config value, and an empty default falls through to the prompt. -/
theorem get_config_value_precedence_witness :
    get_config_value_str (some "cfg-token") (some "cli-token") (some "") ""
      "typed" = ("cli-token", false) ∧
    get_config_value_str none none (some "") "Enter your Plex token"
      "typed-token" = ("typed-token", true) :=
  ⟨(get_config_value_precedence (some "cfg-token") (some "cli-token") (some "") ""
      "typed").1 "cli-token" rfl,
   (get_config_value_precedence none none (some "") "Enter your Plex token"
      "typed-token").2.2.2.1 rfl rfl rfl⟩

/-- **C9.** The config-file `no_delete` value is dead: because the
`store_true` flag always supplies a boolean, the resolver returns the
command-line value whatever the config file says; in particular
`no_delete: true` in the config behaves as `False` when the flag is not
passed. -/
theorem no_delete_config_never_used (config : Option Bool) (cmd_arg : Bool) :
    get_config_value_flag config cmd_arg = cmd_arg ∧
    get_config_value_flag (some true) false = false := by
  refine ⟨?_, rfl⟩
  cases config <;> rfl

/-- Python's `str.isnumeric()` restricted to the ASCII inputs this script
compares against: non-empty and all digits.  In particular `'-1'` is not
numeric, which is what routes the cancellation through the loop body at
line 185. -/
def str_isnumeric (s : String) : Bool :=
  s.length != 0 && s.data.all Char.isDigit

/-- Python's `int()` on a string of digits. -/
def py_int_of_digits (s : String) : Nat :=
  s.data.foldl (fun acc c => acc * 10 + (c.toNat - 48)) 0

/-- The section-selection input loop of `get_section` (lines 183-192): read a
choice, and while it is not a numeric key of a movie/show section, return
`None` on `'-1'` or read again.  `first` is the initial `input()` result and
`rest` the stream of replies to re-prompts; an exhausted `rest` models a user
who stops answering. -/
def choice_loop (choices : List Nat) (first : String) (rest : List String) :
    Option Nat :=
  if str_isnumeric first && choices.contains (py_int_of_digits first) then
    some (py_int_of_digits first)  -- loop exits; line 189 does `int(choice)`
  else if first == "-1" then
    none                           -- cancellation (lines 185-186)
  else
    match rest with
    | [] => none
    | r :: rs => choice_loop choices r rs

example : choice_loop [1, 2] "-1" [] = none := by decide
example : choice_loop [1, 2] "abc" ["2"] = some 2 := by decide

/-- Which stages of `run` (lines 91-125) execute. `fetched_items` records
that `get_all_items` was called (line 102, a library-scanning request);
`processed` records that the group-processing loop and `post_process`
(lines 106-125, the mutation phase) ran. -/
structure RunTrace where
  fetched_items : Bool
  processed : Bool
deriving DecidableEq, Repr

/-- Top-level control flow of `run`: `valid` is `self.valid` from config
loading, `conn_ok` the result of `test_plex_connection`, `section_result`
what `get_section` returned (`none` on an unresolvable or cancelled
selection), `items_result` what `get_all_items` would return.  Note line 100:
`self.get_section()` is called for its side effects only and its result is
never examined. -/
def run (valid : Bool) (conn_ok : Bool) (section_result : Option Nat)
    (items_result : Option (List ItemMetadata)) : RunTrace :=
  if !valid then
    { fetched_items := false, processed := false }      -- lines 94-95
  else if !conn_ok then
    { fetched_items := false, processed := false }      -- lines 97-98
  else
    match items_result with
    | none => { fetched_items := true, processed := false }   -- lines 102-104
    | some root =>
      if root.isEmpty then
        { fetched_items := true, processed := false }   -- `if not root` on []
      else
        { fetched_items := true, processed := true }    -- lines 106-125

/-- **C8 counterexample.** When the user cancels section selection with `-1`
(so `get_section` returns `None`), `run` does *not* return early: it still
calls `get_all_items` (scanning work), and if that call returns items it
proceeds all the way to the mutation phase. -/
theorem run_ignores_section_cancellation :
    choice_loop [1, 2] "-1" [] = none ∧
    run true true (choice_loop [1, 2] "-1" []) (some [blank_item]) =
      { fetched_items := true, processed := true } := by
  decide

/-- **C8 (amended).** `run` returns early, before any scanning or mutation
work, on a missing/invalid config and on a failed connectivity or auth check;
after a `None`/empty library listing it returns before the mutation phase
(but after the scanning request); the result of `get_section` — including a
cancelled or unresolvable selection — has no effect on control flow at all. -/
theorem run_control_flow (valid conn_ok : Bool) (section_result : Option Nat)
    (items_result : Option (List ItemMetadata)) :
    (valid = false →
      run valid conn_ok section_result items_result =
        { fetched_items := false, processed := false }) ∧
    (conn_ok = false →
      run valid conn_ok section_result items_result =
        { fetched_items := false, processed := false }) ∧
    (valid = true → conn_ok = true → items_result = none →
      run valid conn_ok section_result items_result =
        { fetched_items := true, processed := false }) ∧
    (valid = true → conn_ok = true → items_result = some [] →
      run valid conn_ok section_result items_result =
        { fetched_items := true, processed := false }) ∧
    (∀ s', run valid conn_ok section_result items_result =
      run valid conn_ok s' items_result) := by
  refine ⟨?_, ?_, ?_, ?_, ?_⟩
  · rintro rfl; rfl
  · rintro rfl; cases valid <;> rfl
  · rintro rfl rfl rfl; rfl
  · rintro rfl rfl rfl; rfl
  · intro s'; cases valid <;> cases conn_ok <;> rfl

/-- Witness for C8 (amended) at concrete inputs. -/
theorem run_control_flow_witness :
    run false true none none = { fetched_items := false, processed := false } ∧
    run true true (some 1) (some []) = { fetched_items := true, processed := false } :=
  ⟨(run_control_flow false true none none).1 rfl,
   (run_control_flow true true (some 1) (some [])).2.2.2.1 rfl rfl rfl⟩

theorem dict_lookup_dict_set_self (d : List (String × ItemInfo)) (k : String)
    (v : ItemInfo) : dict_lookup (dict_set d k v) k = some v := by
  induction d with
  | nil => simp [dict_set, dict_lookup]
  | cons p rest ih =>
    obtain ⟨k', v'⟩ := p
    by_cases h : k' = k
    · simp [dict_set, dict_lookup, h]
    · simp [dict_set, dict_lookup, h, ih]

theorem dict_lookup_dict_set_ne (d : List (String × ItemInfo)) (k : String)
    (v : ItemInfo) (t : String) (h : t ≠ k) :
    dict_lookup (dict_set d k v) t = dict_lookup d t := by
  induction d with
  | nil => simp [dict_set, dict_lookup, Ne.symm h]
  | cons p rest ih =>
    obtain ⟨k', v'⟩ := p
    by_cases hk : k' = k
    · subst hk
      simp [dict_set, dict_lookup, Ne.symm h]
    · by_cases ht : k' = t
      · subst ht
        simp [dict_set, dict_lookup, hk]
      · simp [dict_set, dict_lookup, hk, ht, ih]

theorem mem_keys_dict_set (d : List (String × ItemInfo)) (k : String)
    (v : ItemInfo) (x : String) :
    x ∈ (dict_set d k v).map Prod.fst ↔ x ∈ d.map Prod.fst ∨ x = k := by
  induction d with
  | nil => simp [dict_set]
  | cons p rest ih =>
    obtain ⟨k', v'⟩ := p
    by_cases h : k' = k
    · subst h
      simp [dict_set]
      tauto
    · simp [dict_set, h, ih]
      tauto

theorem dict_set_keys_nodup (d : List (String × ItemInfo)) (k : String)
    (v : ItemInfo) (h : (d.map Prod.fst).Nodup) :
    ((dict_set d k v).map Prod.fst).Nodup := by
  induction d with
  | nil => simp [dict_set]
  | cons p rest ih =>
    obtain ⟨k', v'⟩ := p
    simp only [List.map_cons, List.nodup_cons] at h
    by_cases hk : k' = k
    · subst hk
      simpa [dict_set] using h
    · simp only [dict_set, if_neg hk, List.map_cons, List.nodup_cons]
      refine ⟨?_, ih h.2⟩
      rw [mem_keys_dict_set]
      rintro (hc | hc)
      · exact h.1 hc
      · exact hk hc

theorem scan_items_keys_nodup (show_section : Bool) :
    ∀ (ms : List (Option ItemMetadata)) (acc : List (String × ItemInfo)),
      (acc.map Prod.fst).Nodup → ((scan_items show_section ms acc).map Prod.fst).Nodup := by
  intro ms
  induction ms with
  | nil => intro acc h; exact h
  | cons om rest ih =>
    intro acc h
    cases om with
    | none => exact ih acc h
    | some m => exact ih _ (dict_set_keys_nodup acc _ _ h)

theorem scan_items_lookup (show_section : Bool) :
    ∀ (ms : List (Option ItemMetadata)) (acc : List (String × ItemInfo)) (t : String),
      dict_lookup (scan_items show_section ms acc) t =
        match last_scanned_with_title show_section t ms with
        | some m => some (process_metadata m)
        | none => dict_lookup acc t := by
  intro ms
  induction ms with
  | nil => intro acc t; rfl
  | cons om rest ih =>
    intro acc t
    cases om with
    | none => exact ih acc t
    | some m =>
      rw [show scan_items show_section (some m :: rest) acc =
        scan_items show_section rest
          (dict_set acc (display_title show_section m) (process_metadata m)) from rfl]
      rw [ih]
      cases hr : last_scanned_with_title show_section t rest with
      | some m' => simp [last_scanned_with_title, hr]
      | none =>
        simp only [last_scanned_with_title, hr]
        by_cases ht : display_title show_section m = t
        · rw [if_pos ht, ht, dict_lookup_dict_set_self]
        · rw [if_neg ht, dict_lookup_dict_set_ne acc _ _ t (fun he => ht he.symm)]

/-- **C10.** The accumulated item map is keyed by display title: after a scan
its keys are pairwise distinct (one entry per title), and the entry stored
under a title is exactly the processed record of the *last* scanned metadata
entry bearing that title — later items overwrite earlier ones. -/
theorem media_items_keyed_by_title (show_section : Bool)
    (ms : List (Option ItemMetadata)) :
    ((scan_items show_section ms []).map Prod.fst).Nodup ∧
    ∀ t, dict_lookup (scan_items show_section ms []) t =
      (last_scanned_with_title show_section t ms).map process_metadata := by
  refine ⟨scan_items_keys_nodup show_section ms [] (by simp), ?_⟩
  intro t
  rw [scan_items_lookup]
  cases last_scanned_with_title show_section t ms <;> rfl

example :
    dict_lookup
      (scan_items false
        [some { blank_item with title := "T", ratingKey := "1" },
         some { blank_item with title := "T", ratingKey := "2" }] [])
      "T" = some (process_metadata { blank_item with title := "T", ratingKey := "2" }) := by
  decide
